import Mathlib

/-!
Verification of the PyTorchSummer2025 notebooks.

The repository consists of two educational notebooks:
* `lesson_1/loss_tracking.ipynb` defines a two-parameter linear model
  (`y = w*x + b`), inspects the autograd provenance graph of its output and
  of an L1 loss, and defines the recursive printer `print_grad_graph`.
* an unnamed notebook comparing four multiplication entry points
  (`torch.matmul`, `torch.mm`, `torch.bmm`, `torch.mul`) on fixed 2x2
  integer matrices.

We shallowly embed the data the notebooks manipulate: autograd backward
nodes as an inductive tree (the library guarantees acyclicity, so the
inductive unfolding is faithful), tensors of the first notebook as scalar
values with provenance metadata, and the 2x2 integer matrices of the second
notebook as nested lists of integers.
-/

namespace LossTracking

/-- Modelled from the spec: the operation kinds of the backward nodes that
appear in the notebook (the recorded cell outputs show exactly these class
names: `AddBackward0`, `MulBackward0`, `SubBackward0`, `AbsBackward0`,
`MeanBackward0`). -/
inductive GFKind where
  | addBackward0
  | mulBackward0
  | subBackward0
  | absBackward0
  | meanBackward0
  deriving DecidableEq, Repr

/-- Modelled from the spec: a backward node of the provenance graph.  An
`op` node records one differentiable operation together with its ordered
operand links (`none` marks an input not tracked for differentiation); an
`acc` node is the `AccumulateGrad` leaf marker of an original parameter or
input, identified by the variable id of the tensor it accumulates into.
The graph construction itself lives in the third-party library and is only
observed by the notebook. -/
inductive GradFn where
  | op (kind : GFKind) (nexts : List (Option GradFn))
  | acc (vid : Nat)
  deriving Repr

/-- The class-name rendering of a backward node, as the printed output of
the notebook shows it (addresses are elided: the exact default rendering is
dictated by the host library, per the spec). -/
def GradFn.reprStr : GradFn → String
  | .op .addBackward0 _ => "AddBackward0"
  | .op .mulBackward0 _ => "MulBackward0"
  | .op .subBackward0 _ => "SubBackward0"
  | .op .absBackward0 _ => "AbsBackward0"
  | .op .meanBackward0 _ => "MeanBackward0"
  | .acc _ => "AccumulateGrad"

/-- The `next_functions` attribute of a backward node: `AccumulateGrad`
leaves expose an empty tuple, operation nodes expose their operand links. -/
def GradFn.next_functions : GradFn → List (Option GradFn)
  | .op _ nexts => nexts
  | .acc _ => []

/-- Modelled from the spec: a tensor of the first notebook, which only ever
uses shape-`(1,1)` tensors, so a tensor is one rational value plus the
provenance metadata the notebook inspects: its `requires_grad` flag, its
`grad_fn` link (`none` for leaves and untracked values) and a variable id
giving the object identity that `AccumulateGrad.variable` refers back to. -/
structure Tensor where
  vid : Nat
  val : ℚ
  requires_grad : Bool
  grad_fn : Option GradFn

/-- Modelled from the spec: the gradient edge the library records for an
operand: an interior result contributes its own `grad_fn`; a leaf with
`requires_grad` contributes its `AccumulateGrad` marker; an untracked
input contributes a null link. -/
def gradEdge (t : Tensor) : Option GradFn :=
  match t.grad_fn with
  | some g => some g
  | none => if t.requires_grad then some (.acc t.vid) else none

/-- Modelled from the spec: result of a tracked binary operation. -/
def binOp (kind : GFKind) (v : ℚ) (a b : Tensor) : Tensor :=
  if a.requires_grad || b.requires_grad then
    { vid := 0, val := v, requires_grad := true,
      grad_fn := some (.op kind [gradEdge a, gradEdge b]) }
  else
    { vid := 0, val := v, requires_grad := false, grad_fn := none }

/-- Modelled from the spec: result of a tracked unary operation. -/
def unOp (kind : GFKind) (v : ℚ) (a : Tensor) : Tensor :=
  if a.requires_grad then
    { vid := 0, val := v, requires_grad := true,
      grad_fn := some (.op kind [gradEdge a]) }
  else
    { vid := 0, val := v, requires_grad := false, grad_fn := none }

/-- Tensor multiplication (scalar case), building a `MulBackward0` node. -/
def tmul (a b : Tensor) : Tensor := binOp .mulBackward0 (a.val * b.val) a b

/-- Tensor addition (scalar case), building an `AddBackward0` node. -/
def tadd (a b : Tensor) : Tensor := binOp .addBackward0 (a.val + b.val) a b

/-- Tensor subtraction (scalar case), building a `SubBackward0` node. -/
def tsub (a b : Tensor) : Tensor := binOp .subBackward0 (a.val - b.val) a b

/-- Tensor absolute value (scalar case), building an `AbsBackward0` node. -/
def tabs (a : Tensor) : Tensor := unOp .absBackward0 |a.val| a

/-- Tensor mean reduction; on the notebook's `(1,1)` tensors the mean is
the value itself.  Builds a `MeanBackward0` node. -/
def tmean (a : Tensor) : Tensor := unOp .meanBackward0 a.val a

/-- A trainable parameter: a leaf with `requires_grad=True` and no
`grad_fn`, as built by `nn.Parameter(torch.randn(1, ...),
requires_grad=True)` in `LinearRegressionModel.__init__`. -/
def mkParam (vid : Nat) (v : ℚ) : Tensor :=
  { vid := vid, val := v, requires_grad := true, grad_fn := none }

/-- A fresh input tensor, as built by `torch.randn(1,1, requires_grad=rg)`. -/
def mkInput (vid : Nat) (v : ℚ) (rg : Bool) : Tensor :=
  { vid := vid, val := v, requires_grad := rg, grad_fn := none }

/-- The model state of `LinearRegressionModel`: two scalar parameters. -/
structure LinearRegressionModel where
  weights : Tensor
  bias : Tensor

/-- `LinearRegressionModel.forward`: `return self.weights * x + self.bias`. -/
def LinearRegressionModel.forward (m : LinearRegressionModel) (x : Tensor) :
    Tensor :=
  tadd (tmul m.weights x) m.bias

/-- `nn.L1Loss()` on the notebook's `(1,1)` tensors: the mean of the
absolute difference, `mean(abs(y_pred - y_true))`, as the notebook's
narration states. -/
def l1Loss (y_pred y_true : Tensor) : Tensor :=
  tmean (tabs (tsub y_pred y_true))

/-- A value passed to `print_grad_graph`, which is duck-typed in the
source: a tensor (has a `grad_fn` attribute, possibly `None`), a backward
node (has a `next_functions` attribute), or anything else (neither
attribute). -/
inductive PyValue where
  | tensor (t : Tensor)
  | fn (g : GradFn)
  | other

/-- `" " * indent`: a run of `indent` spaces. -/
def indentStr (n : Nat) : String := String.mk (List.replicate n ' ')

theorem sizeOf_next_functions_le (g : GradFn) :
    sizeOf g.next_functions ≤ sizeOf g := by
  cases g with
  | op kind nexts => simp [GradFn.next_functions] <;> omega
  | acc vid => simp [GradFn.next_functions]

theorem list_sizeOf_pos {α : Type} [SizeOf α] (l : List α) : 0 < sizeOf l := by
  cases l <;> simp_arith

mutual

/-- The body of `print_grad_graph` once it reaches a backward node `g`:
print `" " * indent + str(g)`, then for each `(f, _)` in
`g.next_functions`, recurse on `f` at `indent + 4` when `f` is not `None`.
Both branches of the source execute exactly this on the node they hold
(a backward-node object has `next_functions` and no `grad_fn` attribute,
so the recursive calls always take the `elif` branch). -/
def pggFn (g : GradFn) (indent : Nat) : List String :=
  (indentStr indent ++ g.reprStr) :: pggList g.next_functions (indent + 4)
termination_by sizeOf g + 1
decreasing_by
  have h := sizeOf_next_functions_le g
  omega

/-- The `for f, _ in next_functions` loop of `print_grad_graph`: iterate
the operand links in order, skipping `None` links. -/
def pggList : List (Option GradFn) → Nat → List String
  | [], _ => []
  | none :: rest, indent => pggList rest indent
  | some f :: rest, indent => pggFn f indent ++ pggList rest indent
termination_by l _ => sizeOf l
decreasing_by
  · simp <;> omega
  · have h := list_sizeOf_pos rest
    simp <;> omega
  · simp <;> omega

end

/-- `print_grad_graph(tensor, indent=0)` from the notebook, with the
console output reified as the list of printed lines: if the value has a
non-`None` `grad_fn`, print it and walk its `next_functions`; else if the
value itself has a `next_functions` attribute (it is a backward node),
print it and walk its `next_functions`; else print nothing. -/
def print_grad_graph (v : PyValue) (indent : Nat) : List String :=
  match v with
  | .tensor t =>
      match t.grad_fn with
      | some g => pggFn g indent
      | none => []
  | .fn g => pggFn g indent
  | .other => []

theorem sizeOf_filterMap_id_le (l : List (Option GradFn)) :
    sizeOf (l.filterMap id) ≤ sizeOf l := by
  induction l with
  | nil => simp
  | cons a rest ih =>
      cases a with
      | none => simp [List.filterMap_cons]; omega
      | some c => simp [List.filterMap_cons]; omega

mutual

/-- Modelled from the spec: the traversal of section 4.1 stated in the
spec's own terms.  At a node of `depth` levels below the root, print the
node's textual identity indented by the base indentation plus four spaces
per depth level, then recurse into the node's non-null operand links in
order. -/
def specDFS (g : GradFn) (depth : Nat) (base : Nat) : List String :=
  (indentStr (base + 4 * depth) ++ g.reprStr) ::
    specDFSList (g.next_functions.filterMap id) (depth + 1) base
termination_by sizeOf g + 1
decreasing_by
  have h1 := sizeOf_filterMap_id_le g.next_functions
  have h2 := sizeOf_next_functions_le g
  omega

/-- Modelled from the spec: visit the (already null-stripped) children in
order. -/
def specDFSList : List GradFn → Nat → Nat → List String
  | [], _, _ => []
  | c :: rest, depth, base => specDFS c depth base ++ specDFSList rest depth base
termination_by l _ _ => sizeOf l
decreasing_by
  · have h := list_sizeOf_pos rest
    simp <;> omega
  · simp <;> omega

end

/-- Modelled from the spec: the graph-inspector contract of section 4.1 at
the top level: begin the spec traversal at the provenance link of a tensor
that has one, at the value itself when it is a provenance node, and do
nothing otherwise. -/
def specInspect (v : PyValue) (indent : Nat) : List String :=
  match v with
  | .tensor t =>
      match t.grad_fn with
      | some g => specDFS g 0 indent
      | none => []
  | .fn g => specDFS g 0 indent
  | .other => []

mutual

/-- The number of distinct root-to-node paths through non-null operand
links of the tree unfolding rooted at `g` (the root itself counts as the
empty path). -/
def pathCount (g : GradFn) : Nat :=
  1 + pathCountList g.next_functions
termination_by sizeOf g + 1
decreasing_by
  have h := sizeOf_next_functions_le g
  omega

/-- Sum of the path counts of the non-null links in `l`. -/
def pathCountList : List (Option GradFn) → Nat
  | [] => 0
  | none :: rest => pathCountList rest
  | some f :: rest => pathCount f + pathCountList rest
termination_by l => sizeOf l
decreasing_by
  · simp <;> omega
  · have h := list_sizeOf_pos rest
    simp <;> omega
  · simp <;> omega

end

/-- Whether a value would be traversed by `print_grad_graph`: a tensor
with a populated (non-`None`) `grad_fn`, or a value that itself has a
`next_functions` attribute.  Anything else lacks provenance. -/
def hasProvenance (v : PyValue) : Bool :=
  match v with
  | .tensor t => t.grad_fn.isSome
  | .fn _ => true
  | .other => false

/-- The path count of the graph `print_grad_graph` would traverse from a
given input value: the number of distinct root-to-node paths through
non-null links, or zero when the value has no provenance to traverse. -/
def pathCountV : PyValue → Nat
  | .tensor t =>
      match t.grad_fn with
      | some g => pathCount g
      | none => 0
  | .fn g => pathCount g
  | .other => 0

mutual

/-- The printer re-expressed against an explicit console state: `out` is
the text already on the console, and each `print` appends one line.  This
is the whole program state the source touches: it assigns no attribute and
returns `None`. -/
def pggFnExec (g : GradFn) (indent : Nat) (out : List String) : List String :=
  pggListExec g.next_functions (indent + 4)
    (out ++ [indentStr indent ++ g.reprStr])
termination_by sizeOf g + 1
decreasing_by
  have h := sizeOf_next_functions_le g
  omega

/-- The child loop against the explicit console state. -/
def pggListExec : List (Option GradFn) → Nat → List String → List String
  | [], _, out => out
  | none :: rest, indent, out => pggListExec rest indent out
  | some f :: rest, indent, out => pggListExec rest indent (pggFnExec f indent out)
termination_by l _ _ => sizeOf l
decreasing_by
  · simp <;> omega
  · have h := list_sizeOf_pos rest
    simp <;> omega
  · simp <;> omega

end

/-- `print_grad_graph` against the explicit console state. -/
def printGradGraphExec (v : PyValue) (indent : Nat) (out : List String) :
    List String :=
  match v with
  | .tensor t =>
      match t.grad_fn with
      | some g => pggFnExec g indent out
      | none => out
  | .fn g => pggFnExec g indent out
  | .other => out

end LossTracking

namespace MatMul

/-- A 2D integer tensor as a list of rows.  The notebook's matrices hold
`torch.int32` values; the values involved stay far below `2^31`, so plain
integers model them exactly. -/
abbrev Mat : Type := List (List Int)

/-- `mat1 = torch.tensor([[1, 2], [3, 4]], dtype=torch.int32)`. -/
def mat1 : Mat := [[1, 2], [3, 4]]

/-- `mat2 = torch.ones([2,2], dtype=torch.int32)`. -/
def mat2 : Mat := List.replicate 2 (List.replicate 2 1)

/-- Number of rows of a 2D tensor. -/
def rows (A : Mat) : Nat := A.length

/-- Number of columns of a 2D tensor (length of its first row). -/
def cols (A : Mat) : Nat := (A.headD []).length

/-- All rows have the column count of the first row: the tensor is a
well-formed rectangle. -/
def isRect (A : Mat) : Bool := A.all (fun row => row.length == cols A)

/-- Dot product of two rows. -/
def dotProd (u v : List Int) : Int := (List.zipWith (fun a b => a * b) u v).sum

/-- Row-by-column product of two rectangular matrices. -/
def matProd (A B : Mat) : Mat :=
  A.map (fun row =>
    (List.range (cols B)).map (fun j => dotProd row (B.map (fun brow => brow.getD j 0))))

/-- `torch.mm(A, B)`: 2D-only matrix multiplication; fails (raises) unless
both arguments are well-formed 2D tensors with compatible inner dimension. -/
def mm (A B : Mat) : Option Mat :=
  if isRect A && isRect B && cols A == rows B then some (matProd A B) else none

/-- `torch.matmul(A, B)` on two 2D arguments: behaves as 2D matrix
multiplication (the broadcasting and higher-dimensional cases of `matmul`
are not exercised by the notebook). -/
def matmul (A B : Mat) : Option Mat := mm A B

/-- `torch.mul(A, B)` on two same-shape 2D tensors: elementwise product
(the broadcasting cases are not exercised by the notebook). -/
def mul (A B : Mat) : Option Mat :=
  if isRect A && isRect B && rows A == rows B && cols A == cols B then
    some (List.zipWith (List.zipWith (fun a b => a * b)) A B)
  else none

/-- `t.unsqueeze(0)`: add a leading batch dimension of size one. -/
def unsqueeze0 (A : Mat) : List Mat := [A]

/-- `torch.bmm(A, B)`: batched matrix multiplication of two 3D tensors
with equal batch size, multiplying corresponding pairs. -/
def bmm (A B : List Mat) : Option (List Mat) :=
  if A.length == B.length
      && (List.zip A B).all
        (fun p => isRect p.1 && isRect p.2 && cols p.1 == rows p.2) then
    some (List.zipWith matProd A B)
  else none

end MatMul

namespace LossTracking

theorem binOp_val (kind : GFKind) (v : ℚ) (a b : Tensor) :
    (binOp kind v a b).val = v := by
  rw [binOp]; split <;> rfl

theorem unOp_val (kind : GFKind) (v : ℚ) (a : Tensor) :
    (unOp kind v a).val = v := by
  rw [unOp]; split <;> rfl

theorem str_mk_append (a b : List Char) :
    String.mk a ++ String.mk b = String.mk (a ++ b) := rfl

theorem str_append_assoc (a b c : String) : a ++ b ++ c = a ++ (b ++ c) := by
  cases a; cases b; cases c; simp [str_mk_append]

theorem indentStr_add (a b : Nat) :
    indentStr (a + b) = indentStr a ++ indentStr b := by
  rw [indentStr, indentStr, indentStr, List.replicate_add, str_mk_append]

mutual

theorem length_pggFn (g : GradFn) (ind : Nat) :
    (pggFn g ind).length = pathCount g := by
  rw [pggFn, pathCount]
  simp [length_pggList g.next_functions (ind + 4)]
  omega
termination_by sizeOf g + 1
decreasing_by
  cases g <;> simp [GradFn.next_functions] <;> omega

theorem length_pggList (l : List (Option GradFn)) (ind : Nat) :
    (pggList l ind).length = pathCountList l := by
  match l with
  | [] => simp [pggList, pathCountList]
  | none :: rest => simp [pggList, pathCountList, length_pggList rest ind]
  | some f :: rest =>
      simp [pggList, pathCountList, length_pggFn f ind, length_pggList rest ind]
termination_by sizeOf l
decreasing_by
  · simp <;> omega
  · simp <;> omega
  · simp <;> omega

end

mutual

theorem pathCount_le_sizeOf (g : GradFn) : pathCount g ≤ sizeOf g := by
  rw [pathCount]
  have h1 := pathCountList_lt_sizeOf g.next_functions
  have h2 := sizeOf_next_functions_le g
  omega
termination_by sizeOf g + 1
decreasing_by
  cases g <;> simp [GradFn.next_functions] <;> omega

theorem pathCountList_lt_sizeOf (l : List (Option GradFn)) :
    pathCountList l < sizeOf l := by
  match l with
  | [] => simp [pathCountList]
  | none :: rest =>
      have h := pathCountList_lt_sizeOf rest
      simp [pathCountList] <;> omega
  | some f :: rest =>
      have h1 := pathCount_le_sizeOf f
      have h2 := pathCountList_lt_sizeOf rest
      simp [pathCountList] <;> omega
termination_by sizeOf l
decreasing_by
  · simp <;> omega
  · simp <;> omega
  · simp <;> omega

end

mutual

theorem pggFn_shift (g : GradFn) (n m : Nat) :
    pggFn g (n + m) = (pggFn g m).map (fun s => indentStr n ++ s) := by
  rw [pggFn, pggFn]
  simp only [List.map_cons]
  have h4 : n + m + 4 = n + (m + 4) := by omega
  rw [indentStr_add, str_append_assoc, h4,
    pggList_shift g.next_functions n (m + 4)]
termination_by sizeOf g + 1
decreasing_by
  cases g <;> simp [GradFn.next_functions] <;> omega

theorem pggList_shift (l : List (Option GradFn)) (n m : Nat) :
    pggList l (n + m) = (pggList l m).map (fun s => indentStr n ++ s) := by
  match l with
  | [] => simp [pggList]
  | none :: rest => simp [pggList, pggList_shift rest n m]
  | some f :: rest =>
      simp [pggList, pggFn_shift f n m, pggList_shift rest n m]
termination_by sizeOf l
decreasing_by
  · simp <;> omega
  · simp <;> omega
  · simp <;> omega

end

mutual

theorem specDFS_eq_pggFn (g : GradFn) (d b : Nat) :
    specDFS g d b = pggFn g (b + 4 * d) := by
  rw [specDFS, pggFn]
  have h : b + 4 * (d + 1) = b + 4 * d + 4 := by omega
  rw [specDFSList_eq_pggList g.next_functions (d + 1) b, h]
termination_by sizeOf g + 1
decreasing_by
  have h1 := sizeOf_filterMap_id_le g.next_functions
  have h2 := sizeOf_next_functions_le g
  omega

theorem specDFSList_eq_pggList (l : List (Option GradFn)) (d b : Nat) :
    specDFSList (l.filterMap id) d b = pggList l (b + 4 * d) := by
  match l with
  | [] => simp [specDFSList, pggList]
  | none :: rest =>
      simp only [List.filterMap_cons, id_eq]
      rw [specDFSList_eq_pggList rest d b, pggList]
  | some f :: rest =>
      simp only [List.filterMap_cons, id_eq]
      rw [specDFSList, specDFS_eq_pggFn f d b,
        specDFSList_eq_pggList rest d b, pggList]
termination_by sizeOf l
decreasing_by
  · simp <;> omega
  · simp <;> omega
  · simp <;> omega

end

mutual

theorem pggFnExec_eq (g : GradFn) (ind : Nat) (out : List String) :
    pggFnExec g ind out = out ++ pggFn g ind := by
  rw [pggFnExec, pggFn,
    pggListExec_eq g.next_functions (ind + 4) (out ++ [indentStr ind ++ g.reprStr])]
  simp
termination_by sizeOf g + 1
decreasing_by
  cases g <;> simp [GradFn.next_functions] <;> omega

theorem pggListExec_eq (l : List (Option GradFn)) (ind : Nat) (out : List String) :
    pggListExec l ind out = out ++ pggList l ind := by
  match l with
  | [] => simp [pggListExec, pggList]
  | none :: rest => simp [pggListExec, pggList, pggListExec_eq rest ind out]
  | some f :: rest =>
      rw [pggListExec, pggListExec_eq rest ind (pggFnExec f ind out),
        pggFnExec_eq f ind out, pggList]
      simp
termination_by sizeOf l
decreasing_by
  · simp <;> omega
  · simp <;> omega
  · simp <;> omega

end

end LossTracking

namespace LossTracking

/-- C1: for the two-parameter affine model `y = w*x + b`, the backward
chain of the forward output is exactly one add-node at the root whose
operand links are a multiply-node and the leaf marker of the bias; the
multiply-node's operand links are the leaf marker of the weight and a null
link when the input `x` is untracked, or the leaf marker of `x` when it is
tracked. -/
theorem forward_graph_structure (w b xv : ℚ) :
    ((LinearRegressionModel.mk (mkParam 0 w) (mkParam 1 b)).forward
        (mkInput 2 xv false)).grad_fn
      = some (.op .addBackward0
          [some (.op .mulBackward0 [some (.acc 0), none]), some (.acc 1)])
    ∧ ((LinearRegressionModel.mk (mkParam 0 w) (mkParam 1 b)).forward
        (mkInput 2 xv true)).grad_fn
      = some (.op .addBackward0
          [some (.op .mulBackward0 [some (.acc 0), some (.acc 2)]),
            some (.acc 1)]) :=
  ⟨rfl, rfl⟩

/-- C2: for the loss chain `mean(abs(y_pred - y_true))` over the affine
prediction and an untracked target, the root backward node is a
mean-reduction node, whose single child is an absolute-value node, whose
child is a subtraction node, whose two children are the prediction's
add-node and a null link for the untracked `y_true`. -/
theorem loss_graph_structure (w b xv yv : ℚ) :
    (l1Loss
        ((LinearRegressionModel.mk (mkParam 0 w) (mkParam 1 b)).forward
          (mkInput 2 xv false))
        (mkInput 3 yv false)).grad_fn
      = some (.op .meanBackward0
          [some (.op .absBackward0
            [some (.op .subBackward0
              [some (.op .addBackward0
                [some (.op .mulBackward0 [some (.acc 0), none]),
                  some (.acc 1)]),
                none])])]) :=
  rfl

/-- C3: `print_grad_graph` performs the pre-order depth-first traversal
stated by the spec: each node's textual identity is printed at the base
indentation plus four spaces per depth level, then its ordered operand
links are visited in order with null links skipped. -/
theorem inspector_preorder_spec (v : PyValue) (ind : Nat) :
    print_grad_graph v ind = specInspect v ind := by
  obtain ⟨vid, val, rg, gf⟩ | g | _ := v
  · cases gf with
    | none => rfl
    | some g =>
        show pggFn g ind = specDFS g 0 ind
        rw [specDFS_eq_pggFn g 0 ind, Nat.mul_zero, Nat.add_zero]
  · show pggFn g ind = specDFS g 0 ind
    rw [specDFS_eq_pggFn g 0 ind, Nat.mul_zero, Nat.add_zero]
  · rfl

/-- C4: on any value that neither carries a populated `grad_fn` nor has a
`next_functions` attribute, `print_grad_graph` prints nothing and raises
nothing: a silent no-op. -/
theorem inspector_silent_no_provenance (v : PyValue) (ind : Nat)
    (h : hasProvenance v = false) : print_grad_graph v ind = [] := by
  obtain ⟨vid, val, rg, gf⟩ | g | _ := v
  · cases gf with
    | none => rfl
    | some g => simp [hasProvenance] at h
  · simp [hasProvenance] at h
  · rfl

/-- Witness for C4 at a concrete provenance-free tensor and indent 7. -/
theorem inspector_silent_no_provenance_witness :
    hasProvenance (.tensor (mkInput 0 0 false)) = false
      ∧ print_grad_graph (.tensor (mkInput 0 0 false)) 7 = [] :=
  ⟨rfl, inspector_silent_no_provenance (.tensor (mkInput 0 0 false)) 7 rfl⟩

/-- C6: the forward evaluation's output value equals `w*x + b`: the weight
value times the input value plus the bias value (exactly, in the rational
model of the float values, hence within any floating-point tolerance). -/
theorem forward_value_affine (m : LinearRegressionModel) (x : Tensor) :
    (m.forward x).val = m.weights.val * x.val + m.bias.val := by
  simp [LinearRegressionModel.forward, tadd, tmul, binOp_val]

/-- C7: the traversal of `print_grad_graph` terminates on every input:
the graph is a finite acyclic structure (an inductive value, the
embedding of the library-guaranteed DAG invariant), and the number of
lines the traversal emits is bounded by the size of that structure. -/
theorem inspector_terminates_bounded (v : PyValue) (ind : Nat) :
    (print_grad_graph v ind).length ≤ sizeOf v := by
  obtain ⟨vid, val, rg, gf⟩ | g | _ := v
  · cases gf with
    | none => simp [print_grad_graph]
    | some g =>
        show (pggFn g ind).length ≤ _
        rw [length_pggFn g ind]
        have h := pathCount_le_sizeOf g
        simp
        omega
  · show (pggFn g ind).length ≤ _
    rw [length_pggFn g ind]
    have h := pathCount_le_sizeOf g
    simp
    omega
  · simp [print_grad_graph]

/-- C8: `print_grad_graph` is purely observational: run against an
explicit console state it returns the prior console text with its own
lines appended, and the traversed structure (an immutable value it only
reads) is untouched; it produces no other result. -/
theorem inspector_pure_console_append (v : PyValue) (ind : Nat)
    (out : List String) :
    printGradGraphExec v ind out = out ++ print_grad_graph v ind := by
  obtain ⟨vid, val, rg, gf⟩ | g | _ := v
  · cases gf with
    | none => simp [printGradGraphExec, print_grad_graph]
    | some g => exact pggFnExec_eq g ind out
  · exact pggFnExec_eq g ind out
  · simp [printGradGraphExec, print_grad_graph]

/-- C9: `print_grad_graph` keeps no visited set: it prints exactly one
line per distinct root-to-node path through non-null links, so a node
whose subgraph is linked twice by its parent is printed once per path:
the output is the tree unfolding of the DAG. -/
theorem inspector_line_per_path :
    (∀ (v : PyValue) (ind : Nat),
      (print_grad_graph v ind).length = pathCountV v)
    ∧ ∀ (kind : GFKind) (c : GradFn) (ind : Nat),
        pggFn (.op kind [some c, some c]) ind
          = (indentStr ind ++ (GradFn.op kind [some c, some c]).reprStr)
              :: (pggFn c (ind + 4) ++ pggFn c (ind + 4)) := by
  constructor
  · intro v ind
    obtain ⟨vid, val, rg, gf⟩ | g | _ := v
    · cases gf with
      | none => rfl
      | some g =>
          show (pggFn g ind).length = pathCount g
          exact length_pggFn g ind
    · exact length_pggFn g ind
    · rfl
  · intro kind c ind
    rw [pggFn]
    simp [pggList, GradFn.next_functions]

/-- C10: calling `print_grad_graph` with initial indent `n` produces
exactly the output of calling it with indent 0 with every line prefixed
by `n` additional spaces. -/
theorem inspector_indent_shift (v : PyValue) (n : Nat) :
    print_grad_graph v n = (print_grad_graph v 0).map (fun s => indentStr n ++ s) := by
  obtain ⟨vid, val, rg, gf⟩ | g | _ := v
  · cases gf with
    | none => rfl
    | some g =>
        show pggFn g n = (pggFn g 0).map _
        have h := pggFn_shift g n 0
        simpa using h
  · show pggFn g n = (pggFn g 0).map _
    have h := pggFn_shift g n 0
    simpa using h
  · rfl

end LossTracking

namespace MatMul

/-- C5: on `mat1 = [[1,2],[3,4]]` and the all-ones `mat2`: elementwise
`torch.mul` yields `[[1,2],[3,4]]`; `torch.matmul` and `torch.mm` yield
`[[3,3],[7,7]]`; batching via `unsqueeze(0)` and `torch.bmm` yields the
same product inside a singleton batch, `[[[3,3],[7,7]]]`. -/
theorem matmul_comparators_values :
    mul mat1 mat2 = some [[1, 2], [3, 4]]
      ∧ matmul mat1 mat2 = some [[3, 3], [7, 7]]
      ∧ mm mat1 mat2 = some [[3, 3], [7, 7]]
      ∧ bmm (unsqueeze0 mat1) (unsqueeze0 mat2) = some [[[3, 3], [7, 7]]] := by
  decide

end MatMul
